import Mathlib

/-!
A verification development for the DynamORM table-operation and
query/condition-expression builder (`dynamorm/table.py`) and the paginated
query/scan executor (`dynamorm/model.py`).

Python values, exceptions and the boto3 condition objects are shallowly
embedded.  Each Lean definition mirrors one Python function of the source;
Python `dict`s appearing as keyword-argument mappings are modelled as
association lists in iteration order, and exceptions are modelled with
`Except`.
-/

set_option autoImplicit false

/-- Embedded Python values, as they appear in items and operator arguments. -/
inductive PyVal where
  | pynone : PyVal
  | pybool (b : Bool) : PyVal
  | pynum (n : Int) : PyVal
  | pystr (s : String) : PyVal
  | pylist (xs : List PyVal) : PyVal
  | pydict (kvs : List (String × PyVal)) : PyVal

/-- The exceptions the modelled code can raise: the classes defined in
`dynamorm/exceptions.py` that the table layer uses, plus the Python builtin
exceptions (`AssertionError`, `TypeError`, `KeyError`, `AttributeError`) and
the transport's `botocore.exceptions.ClientError` carrying its error code. -/
inductive PyErr where
  | assertionError : PyErr
  | typeError : PyErr
  | keyError : PyErr
  | attributeError : PyErr
  | clientError (code : String) : PyErr
  | missingTableAttribute : PyErr
  | invalidSchemaField : PyErr
  | invalidKey : PyErr
  | hashKeyExists : PyErr
  | conditionFailed : PyErr
  | tableNotActive : PyErr
  | validationError : PyErr
deriving DecidableEq

/-- Whether an exception is one of DynamORM's own exception classes
(defined in `dynamorm/exceptions.py`) rather than a Python builtin or a
transport error. -/
def isDynamormError : PyErr → Bool
  | .missingTableAttribute | .invalidSchemaField | .invalidKey
  | .hashKeyExists | .conditionFailed | .tableNotActive | .validationError => true
  | _ => false

/-- `value is None`. -/
def isNoneV : PyVal → Bool
  | .pynone => true
  | _ => false

/-- `value is True`. -/
def isTrueV : PyVal → Bool
  | .pybool true => true
  | _ => false

/-- `isinstance(value, collections.Iterable)`, together with the argument
list produced by `op(*value)`: lists unpack to their elements, strings to
their one-character substrings, dicts to their keys.  Numbers, booleans and
`None` are not iterable. -/
def iterArgs : PyVal → Option (List PyVal)
  | .pylist xs => some xs
  | .pystr s => some (s.data.map fun c => .pystr (String.mk [c]))
  | .pydict kvs => some (kvs.map fun kv => .pystr kv.1)
  | _ => none

/-- Helper for `pySplitDU`: split a character list on each (non-overlapping,
leftmost-first) occurrence of a double underscore, accumulating the current
segment in reverse. -/
def splitSegsAux : List Char → List Char → List (List Char)
  | [], acc => [acc.reverse]
  | '_' :: '_' :: rest, acc => acc.reverse :: splitSegsAux rest []
  | c :: rest, acc => splitSegsAux rest (c :: acc)

/-- Python `s.split('__')`: split on every double underscore.  Always returns
at least one segment. -/
def pySplitDU (s : String) : List String :=
  (splitSegsAux s.data []).map fun cs => String.mk cs

/-- Helper for `pySplitOnce`: find the first double underscore. -/
def splitOnceAux : List Char → List Char → String × Option String
  | [], acc => (String.mk acc.reverse, none)
  | '_' :: '_' :: rest, acc => (String.mk acc.reverse, some (String.mk rest))
  | c :: rest, acc => splitOnceAux rest (c :: acc)

/-- Python `s.split('__', 1)`: split on the first double underscore only,
`none` in the second component when no double underscore occurs (the
`ValueError` branch of `key, function = key.split('__', 1)`). -/
def pySplitOnce (s : String) : String × Option String :=
  splitOnceAux s.data []

/-- The non-dunder attribute names of a `boto3.dynamodb.conditions.Attr`
object: its comparison/function methods plus the `name` attribute.  This is
the set probed by `hasattr(attr, parts[0])` in `Q`. -/
def attrOps : List String :=
  ["name", "eq", "ne", "lt", "lte", "gt", "gte", "begins_with", "between",
   "is_in", "exists", "not_exists", "contains", "size", "attribute_type"]

/-- The `while len(parts)` loop of `Q` (`table.py`): scan the segments after
the first from the left; a segment that is not an `Attr` attribute extends
the dot-joined nested path, while the first segment that is an `Attr`
attribute is consumed as the operator and the loop breaks, leaving the
remaining segments untouched.  Returns (path, operator, leftover segments);
the operator defaults to `eq` when the segments are exhausted. -/
def parsePartsLTR : String → List String → String × String × List String
  | path, [] => (path, "eq", [])
  | path, p :: rest =>
      if p ∈ attrOps then (path, p, rest)
      else parsePartsLTR (path ++ "." ++ p) rest

/-- The attribute-token parser of `Q` (`table.py` lines 661-673): split the
token on double underscores, seed the path with the first segment, run the
left-to-right loop, then `assert len(parts) == 0`.  `none` models the
`AssertionError` raised when segments remain after the operator. -/
def parseAttr (tok : String) : Option (String × String) :=
  match pySplitDU tok with
  | [] => none
  | first :: rest =>
      match parsePartsLTR first rest with
      | (path, op, []) => some (path, op)
      | _ => none

/-- Modelled from the spec: the attribute-path parser as §4.1 of the spec
describes it — the token is split on the delimiter from the right, one
segment at a time; if the candidate last segment matches a known operator
name it is consumed as the operator and parsing stops, otherwise that
segment becomes another path component; if no operator is found the
operator defaults to `eq`.  (Helper: scans the reversed segment list.) -/
def rtlScan : List String → List String → List String × String
  | [], acc => (acc, "eq")
  | p :: rest, acc =>
      if p ∈ attrOps then (rest.reverse ++ acc, p)
      else rtlScan rest (p :: acc)

/-- Modelled from the spec: the right-to-left attribute-path parser of §4.1,
returning the dot-joined path and the operator. -/
def parseAttrSpecRTL (tok : String) : String × String :=
  match rtlScan (pySplitDU tok).reverse [] with
  | (segs, op) => (String.intercalate "." segs, op)

/-- Left fold `dot-join` of path segments onto a first segment, as the
parser loop builds it. -/
def dotJoin (first : String) (rest : List String) : String :=
  List.foldl (fun a p => a ++ "." ++ p) first rest

/-- A boto3 condition-expression tree over `Attr` objects, as built by `Q`
and combined by the `&`, `|` and `~` operators of boto3 condition objects.
A leaf records the operator name, the (dot-joined) attribute path and the
argument list the operator method was called with. -/
inductive CondExpr where
  | leaf (op : String) (path : String) (args : List PyVal) : CondExpr
  | and (a b : CondExpr) : CondExpr
  | or (a b : CondExpr) : CondExpr
  | not (a : CondExpr) : CondExpr

/-- Number of value arguments each `Attr` operator method takes, `none` for
`name`, which is a plain string attribute and not callable. -/
def attrOpArity : String → Option Nat
  | "between" => some 2
  | "exists" | "not_exists" | "size" => some 0
  | "name" => none
  | "eq" | "ne" | "lt" | "lte" | "gt" | "gte" | "begins_with"
  | "is_in" | "contains" | "attribute_type" => some 1
  | _ => none

/-- Calling `op(*args)` on an `Attr` method: a `TypeError` when the arity
does not match (or the attribute is not callable), the leaf condition
otherwise. -/
def callAttrOp (path op : String) (args : List PyVal) : Except PyErr CondExpr :=
  match attrOpArity op with
  | none => .error .typeError
  | some n => if args.length = n then .ok (.leaf op path args) else .error .typeError

/-- The `try: attr_expression = op(value) except TypeError:` block of `Q`:
on a `TypeError`, if the value is `True` re-call the operator with no
arguments, else if the value is iterable unpack it as the argument list,
otherwise re-raise. -/
def applyQOp (path op : String) (value : PyVal) : Except PyErr CondExpr :=
  match callAttrOp path op [value] with
  | .ok e => .ok e
  | .error .typeError =>
      if isTrueV value then callAttrOp path op []
      else
        match iterArgs value with
        | some args => callAttrOp path op args
        | none => .error .typeError
  | .error e => .error e

/-- `expression & attr_expression` with the `TypeError` fallback of `Q`:
`None & e` raises `TypeError`, caught to yield `e` itself. -/
def andFold (acc : Option CondExpr) (e : CondExpr) : CondExpr :=
  match acc with
  | none => e
  | some a => .and a e

/-- The `while len(mapping)` loop of `Q`: parse each token (propagating the
`AssertionError` of leftover segments), apply the operator to the value, and
AND the result onto the accumulated expression.  The Python `dict.popitem`
iteration order is modelled by the list order of the mapping. -/
def Qrun : Option CondExpr → List (String × PyVal) → Except PyErr (Option CondExpr)
  | acc, [] => .ok acc
  | acc, (tok, value) :: rest =>
      match parseAttr tok with
      | none => .error .assertionError
      | some (path, op) =>
          match applyQOp path op value with
          | .ok e => Qrun (some (andFold acc e)) rest
          | .error err => .error err

/-- `Q(**mapping)` (`table.py` lines 650-695): build the AND of the leaf
conditions of the mapping, `none` (Python `None`) for an empty mapping. -/
def Q (mapping : List (String × PyVal)) : Except PyErr (Option CondExpr) :=
  Qrun none mapping

/-- The filter-expression assembly of `DynamoTable3.scan` (`table.py` lines
617-630): `Q(**kwargs)` followed by the fold of the positional expressions,
where `filter_expression & arg` falls back to `arg` on the `TypeError`
raised by `None & arg`. -/
def scanFilter (args : List CondExpr) (kwargs : List (String × PyVal)) :
    Except PyErr (Option CondExpr) :=
  match Q kwargs with
  | .error e => .error e
  | .ok q => .ok (List.foldl (fun acc a => some (andFold acc a)) q args)

/-- A boto3 `Key` condition expression, as built by `DynamoTable3.query`. -/
inductive KeyCond where
  | leaf (op : String) (attr : String) (args : List PyVal) : KeyCond
  | and (a b : KeyCond) : KeyCond

/-- The non-dunder attribute names of a `boto3.dynamodb.conditions.Key`
object; `getattr(key, op)` raises `AttributeError` for anything else. -/
def keyAttrSet : List String :=
  ["name", "eq", "lt", "lte", "gt", "gte", "begins_with", "between"]

/-- Number of value arguments each `Key` operator method takes, `none` for
the non-callable `name` attribute. -/
def keyOpArity : String → Option Nat
  | "between" => some 2
  | "name" => none
  | "eq" | "lt" | "lte" | "gt" | "gte" | "begins_with" => some 1
  | _ => none

/-- The `key, op = key.split('__')` of `DynamoTable3.query`: the two-way
unpacking succeeds only when the token has exactly two segments; the
`ValueError` branch leaves the token unchanged with operator `eq`. -/
def querySplit (tok : String) : String × String :=
  match pySplitDU tok with
  | [k, o] => (k, o)
  | _ => (tok, "eq")

/-- `op = getattr(Key(key), op); op(value)` in `DynamoTable3.query`: an
`AttributeError` for an unknown operator name, a `TypeError` when the single
value does not match the method's arity (`between` takes two arguments and
`name` is not callable — there is no `TypeError` fallback here, unlike `Q`). -/
def queryOpCall (attr op : String) (v : PyVal) : Except PyErr KeyCond :=
  if op ∈ keyAttrSet then
    match keyOpArity op with
    | some 1 => .ok (.leaf op attr [v])
    | _ => .error .typeError
  else .error .attributeError

/-- The `KeyConditionExpression` accumulation of `DynamoTable3.query`: a
first condition is stored as-is, later ones are AND-combined. -/
def keyAndFold (acc : Option KeyCond) (c : KeyCond) : KeyCond :=
  match acc with
  | none => c
  | some a => .and a c

/-- The `while len(kwargs)` loop of `DynamoTable3.query` (lines 590-612):
split each token, check the attribute against the hash/range attribute
fields of the targeted key schema (`InvalidSchemaField` otherwise — note
that no distinction between the hash and the range key is made), call the
`Key` operator and AND it onto the `KeyConditionExpression`.  `popitem`
order is modelled by list order. -/
def queryLoop (attrFields : List String) :
    Option KeyCond → List (String × PyVal) → Except PyErr (Option KeyCond)
  | acc, [] => .ok acc
  | acc, (tok, v) :: rest =>
      if (querySplit tok).1 ∈ attrFields then
        match queryOpCall (querySplit tok).1 (querySplit tok).2 v with
        | .ok c => queryLoop attrFields (some (keyAndFold acc c)) rest
        | .error e => .error e
      else .error .invalidSchemaField

/-- `DynamoTable3.query` up to the wire call (lines 584-615): the
`assert len(kwargs) in (1, 2)` arity check, then the key-condition loop.
The result is the `KeyConditionExpression` that would be sent. -/
def queryBuild (attrFields : List String) (kwargs : List (String × PyVal)) :
    Except PyErr (Option KeyCond) :=
  if kwargs.length = 1 ∨ kwargs.length = 2 then queryLoop attrFields none kwargs
  else .error .assertionError

/-- The four accumulators of `DynamoTable3.update` (`table.py` lines
480-483): the `Key` mapping, the `SET` clause fragments, and the
expression-attribute name/value alias tables. -/
structure UpdateParts where
  updateKey : List (String × PyVal)
  updateFields : List String
  exprNames : List (String × String)
  exprVals : List (String × PyVal)

/-- Python dict assignment `d[k] = v` on an insertion-ordered mapping:
overwrite in place when the key exists, append otherwise. -/
def dictInsert {α : Type} (k : String) (v : α) : List (String × α) → List (String × α)
  | [] => [(k, v)]
  | (k', v') :: rest =>
      if k' = k then (k, v) :: rest else (k', v') :: dictInsert k v rest

/-- The resolved attribute name of one update kwarg:
`key, function = key.split('__', 1)`, first component. -/
def updAttr (tok : String) : String :=
  (pySplitOnce tok).1

/-- The update-function suffix of one update kwarg: second component of
`key.split('__', 1)`, `none` when there is no double underscore. -/
def updFn (tok : String) : Option String :=
  (pySplitOnce tok).2

/-- `UPDATE_FUNCTION_TEMPLATES[function].format(key)` (`table.py` lines
485-491): the `SET` clause fragment for one non-key attribute; `none`
models the `KeyError` of an unknown update-function suffix. -/
def updateTemplate (fn : Option String) (key : String) : Option String :=
  match fn with
  | none => some ("#uk_" ++ key ++ " = :uv_" ++ key)
  | some "append" => some ("#uk_" ++ key ++ " = list_append(#uk_" ++ key ++ ", :uv_" ++ key ++ ")")
  | some "plus" => some ("#uk_" ++ key ++ " = #uk_" ++ key ++ " + :uv_" ++ key)
  | some "minus" => some ("#uk_" ++ key ++ " = #uk_" ++ key ++ " - :uv_" ++ key)
  | some "if_not_exists" => some ("#uk_" ++ key ++ " = if_not_exists(#uk_" ++ key ++ ", :uv_" ++ key ++ ")")
  | some _ => none

/-- The `for key, value in six.iteritems(kwargs)` loop of
`DynamoTable3.update` (`table.py` lines 493-508): strip the update-function
suffix, check the attribute against the schema fields
(`InvalidSchemaField`), route hash/range-key attributes into the `Key`
mapping and everything else into the `SET` fragments with `#uk_`/`:uv_`
aliases. -/
def buildUpdateParts (schemaFields : List String) (hashKey : String)
    (rangeKey : Option String) (acc : UpdateParts) :
    List (String × PyVal) → Except PyErr UpdateParts
  | [] => .ok acc
  | (tok, v) :: rest =>
      if updAttr tok ∈ schemaFields then
        if updAttr tok = hashKey ∨ rangeKey = some (updAttr tok) then
          buildUpdateParts schemaFields hashKey rangeKey
            { acc with updateKey := dictInsert (updAttr tok) v acc.updateKey } rest
        else
          match updateTemplate (updFn tok) (updAttr tok) with
          | none => .error .keyError
          | some frag =>
              buildUpdateParts schemaFields hashKey rangeKey
                { updateKey := acc.updateKey
                  updateFields := acc.updateFields ++ [frag]
                  exprNames := dictInsert ("#uk_" ++ updAttr tok) (updAttr tok) acc.exprNames
                  exprVals := dictInsert (":uv_" ++ updAttr tok) v acc.exprVals } rest
      else .error .invalidSchemaField

/-- `DynamoTable3.update`'s kwargs processing, started from the four empty
accumulators. -/
def updateKwargs (schemaFields : List String) (hashKey : String)
    (rangeKey : Option String) (kwargs : List (String × PyVal)) :
    Except PyErr UpdateParts :=
  buildUpdateParts schemaFields hashKey rangeKey ⟨[], [], [], []⟩ kwargs

/-- `'SET {0}'.format(', '.join(update_fields))` (`table.py` line 511). -/
def updateExpressionString (parts : UpdateParts) : String :=
  "SET " ++ String.intercalate ", " parts.updateFields

mutual
/-- `remove_nones` (`table.py` lines 636-647) together with its recursion
through dictionary values: `six.iteritems` raises for any non-dict value
(`AttributeError`), which the function catches to return the value
unchanged, so only dict values are descended into; entries whose value is
`None` are dropped. -/
def remove_nones : PyVal → PyVal
  | .pydict kvs => .pydict (removeNonesKVs kvs)
  | v => v
termination_by structural v => v

/-- The dict comprehension inside `remove_nones`: drop `None`-valued
entries, recurse into the kept values. -/
def removeNonesKVs : List (String × PyVal) → List (String × PyVal)
  | [] => []
  | (k, v) :: rest =>
      if isNoneV v then removeNonesKVs rest
      else (k, remove_nones v) :: removeNonesKVs rest
termination_by structural kvs => kvs
end

mutual
/-- Whether a value contains no `None`-valued dictionary entry when
descending through dict values only (the portion of a value `remove_nones`
can clean). -/
def cleanThroughDicts : PyVal → Bool
  | .pydict kvs => cleanKVs kvs
  | _ => true
termination_by structural v => v

/-- Entry-list form of `cleanThroughDicts`. -/
def cleanKVs : List (String × PyVal) → Bool
  | [] => true
  | (_, v) :: rest => !isNoneV v && cleanThroughDicts v && cleanKVs rest
termination_by structural kvs => kvs
end

mutual
/-- Whether a value contains a `None`-valued dictionary entry anywhere,
descending through both dict values and list elements. -/
def hasNoneAttr : PyVal → Bool
  | .pydict kvs => hasNoneAttrKVs kvs
  | .pylist xs => hasNoneAttrList xs
  | _ => false
termination_by structural v => v

/-- Entry-list form of `hasNoneAttr`. -/
def hasNoneAttrKVs : List (String × PyVal) → Bool
  | [] => false
  | (_, v) :: rest => isNoneV v || hasNoneAttr v || hasNoneAttrKVs rest
termination_by structural kvs => kvs

/-- Element-list form of `hasNoneAttr`. -/
def hasNoneAttrList : List PyVal → Bool
  | [] => false
  | v :: rest => hasNoneAttr v || hasNoneAttrList rest
termination_by structural xs => xs
end

/-- `DynamoTable3.put` (`table.py` line 461): send `remove_nones(item)` to
the transport's `put_item`.  The transport is a parameter. -/
def put {R : Type} (transport : PyVal → Except PyErr R) (item : PyVal) :
    Except PyErr R :=
  transport (remove_nones item)

/-- `DynamoTable3.put_batch` (`table.py` lines 472-475): send
`remove_nones(item)` for each item to the batch writer. -/
def put_batch {R : Type} (transport : PyVal → Except PyErr R)
    (items : List PyVal) : Except PyErr (List R) :=
  items.mapM fun item => transport (remove_nones item)

/-- The `except botocore.exceptions.ClientError` handler of
`DynamoTable3.put_unique` (`table.py` lines 467-470): a
`ConditionalCheckFailedException` becomes `HashKeyExists`; every other
outcome passes through unchanged. -/
def translatePutUnique {R : Type} (wire : Except PyErr R) : Except PyErr R :=
  match wire with
  | .error (.clientError code) =>
      if code = "ConditionalCheckFailedException" then .error .hashKeyExists
      else .error (.clientError code)
  | w => w

/-- The `except botocore.exceptions.ClientError` handler of
`DynamoTable3.update` (`table.py` lines 530-535): a
`ConditionalCheckFailedException` becomes `ConditionFailed`; every other
outcome passes through unchanged. -/
def translateUpdate {R : Type} (wire : Except PyErr R) : Except PyErr R :=
  match wire with
  | .error (.clientError code) =>
      if code = "ConditionalCheckFailedException" then .error .conditionFailed
      else .error (.clientError code)
  | w => w

/-- `DynamoTable3.put_unique` (`table.py` lines 463-470): a conditional put
of the cleaned item under `attribute_not_exists(hash_key)`, with the
call-site error translation.  The transport takes the condition string and
the item. -/
def put_unique {R : Type} (hashKey : String)
    (transport : String → PyVal → Except PyErr R) (item : PyVal) :
    Except PyErr R :=
  translatePutUnique
    (transport ("attribute_not_exists(" ++ hashKey ++ ")") (remove_nones item))

/-- `DynamoTable3.update` after the kwargs processing (`table.py` lines
510-535): build the parts, build the `ConditionExpression` from the
conditions mapping via `Q`, send, and translate the conditional-check
failure.  The transport takes the parts and the optional condition. -/
def table_update {R : Type} (schemaFields : List String) (hashKey : String)
    (rangeKey : Option String) (conditions : List (String × PyVal))
    (kwargs : List (String × PyVal))
    (transport : UpdateParts → Option CondExpr → Except PyErr R) :
    Except PyErr R :=
  match updateKwargs schemaFields hashKey rangeKey kwargs with
  | .error e => .error e
  | .ok parts =>
      match Q conditions with
      | .error e => .error e
      | .ok cond => translateUpdate (transport parts cond)

/-- One transport response to a `scan`/`query` request, with the fields
`DynaModel._yield_items` reads: the item array (items can in principle be
`None`, which the executor skips), the optional `LastEvaluatedKey`
continuation cursor, and the `ScannedCount`. -/
structure Page where
  items : List (Option Nat)
  lastKey : Option Nat
  scanned : Nat

/-- The outcome of a full `_yield_items` run: the items yielded in order,
the number of requests issued, and the `ExclusiveStartKey` in effect for
each issued request (in order). -/
structure RunResult where
  yielded : List Nat
  requests : Nat
  startKeys : List (Option Nat)
deriving DecidableEq

/-- `DynaModel._yield_items` (`model.py` lines 397-422), with the transport
modelled as the list of responses the successive requests receive.  Each
loop iteration issues one request (consuming the head response, with `esk`
the `ExclusiveStartKey` currently merged into the kwargs), yields the
non-`None` items, stops if the response has no `LastEvaluatedKey`, else
decrements the caller `Limit` (when one is present in the
`scan_kwargs`/`query_kwargs` sub-dict) by the response's `ScannedCount` and
stops when it drops to zero or below, else passes the `LastEvaluatedKey` as
the next request's `ExclusiveStartKey`.  `none` is returned only when the
response list is exhausted while the executor would issue another request. -/
def yieldItems (limit : Option Int) (esk : Option Nat) :
    List Page → Option RunResult
  | [] => none
  | p :: rest =>
      let ys := p.items.filterMap id
      match p.lastKey with
      | none => some ⟨ys, 1, [esk]⟩
      | some lek =>
          match limit with
          | none =>
              match yieldItems none (some lek) rest with
              | some r => some ⟨ys ++ r.yielded, r.requests + 1, esk :: r.startKeys⟩
              | none => none
          | some l =>
              if l - p.scanned ≤ 0 then some ⟨ys, 1, [esk]⟩
              else
                match yieldItems (some (l - p.scanned)) (some lek) rest with
                | some r => some ⟨ys ++ r.yielded, r.requests + 1, esk :: r.startKeys⟩
                | none => none

/-- A response sequence in which every page except the last carries a
`LastEvaluatedKey` and the last does not. -/
def chainedPages : List Page → Bool
  | [] => false
  | [p] => p.lastKey.isNone
  | p :: q :: rest => p.lastKey.isSome && chainedPages (q :: rest)

/-- The items of all pages, per page in order, `None` entries skipped. -/
def allItems (pages : List Page) : List Nat :=
  (pages.map fun p => p.items.filterMap id).flatten

/-- Three pages of two items each, every page scanning two items, the first
two carrying continuation cursors: the concrete transport of the
pages-`[2,2,2]`-with-`Limit`-3 scenario. -/
def pages223 : List Page :=
  [⟨[some 1, some 2], some 101, 2⟩,
   ⟨[some 3, some 4], some 102, 2⟩,
   ⟨[some 5, some 6], none, 2⟩]

/-! Helper lemmas -/

/-- Appending on the left of a string is injective. -/
theorem str_append_left_cancel {p a b : String} (h : p ++ a = p ++ b) : a = b := by
  have hd : p.data ++ a.data = p.data ++ b.data := congrArg String.data h
  cases a with
  | mk da =>
      cases b with
      | mk db =>
          have hab : da = db := by simpa using List.append_cancel_left hd
          exact congrArg String.mk hab

/-- The inserted pair is a member after a Python dict assignment. -/
theorem dictInsert_mem_self {α : Type} (k : String) (v : α)
    (d : List (String × α)) : (k, v) ∈ dictInsert k v d := by
  induction d with
  | nil => simp [dictInsert]
  | cons kv rest ih =>
      by_cases h : kv.1 = k
      · cases kv; simp_all [dictInsert]
      · cases kv; simp_all [dictInsert]

/-- A Python dict assignment with a different key preserves membership. -/
theorem dictInsert_mem_of_ne {α : Type} {k' : String} {v' : α}
    {d : List (String × α)} (k : String) (v : α) (hm : (k', v') ∈ d)
    (hne : k' ≠ k) : (k', v') ∈ dictInsert k v d := by
  induction d with
  | nil => simp at hm
  | cons kv rest ih =>
      rcases List.mem_cons.mp hm with h | h
      · subst h
        simp [dictInsert, hne]
      · cases kv with
        | mk k0 v0 =>
            by_cases h0 : k0 = k
            · subst h0
              simp [dictInsert, List.mem_cons]
              right
              exact h
            · simp only [dictInsert, if_neg h0, List.mem_cons]
              right
              exact ih h

/-- Every member after a Python dict assignment is the inserted pair or an
original member. -/
theorem mem_dictInsert {α : Type} {a k : String} {b v : α} :
    ∀ {d : List (String × α)}, (a, b) ∈ dictInsert k v d → (a, b) = (k, v) ∨ (a, b) ∈ d := by
  intro d
  induction d with
  | nil => intro h; simpa [dictInsert] using h
  | cons kv rest ih =>
      intro h
      cases kv with
      | mk k0 v0 =>
          rw [dictInsert] at h
          by_cases h0 : k0 = k
          · rw [if_pos h0] at h
            rcases List.mem_cons.mp h with h1 | h1
            · exact Or.inl h1
            · exact Or.inr (List.mem_cons_of_mem _ h1)
          · rw [if_neg h0] at h
            rcases List.mem_cons.mp h with h1 | h1
            · exact Or.inr (List.mem_cons.mpr (Or.inl h1))
            · rcases ih h1 with h2 | h2
              · exact Or.inl h2
              · exact Or.inr (List.mem_cons_of_mem _ h2)

/-! Claim C2 -/

/-- Claim C2: the condition builder `Q` applied to an empty mapping (and no
positional expressions) returns `None`, and folding `None` together with any
already-built expression `E` under the default AND combination yields `E`
unchanged — `None` is the identity of the AND fold used by `scan` (and by
`update`'s conditions handling). -/
theorem C2_Q_empty_and_none_identity :
    Q [] = .ok none
    ∧ (∀ E : CondExpr, andFold none E = E)
    ∧ (∀ E : CondExpr, scanFilter [E] [] = .ok (some E)) :=
  ⟨rfl, fun _ => rfl, fun _ => rfl⟩

/-! Claim C9 -/

/-- Claim C9: the transport's `ConditionalCheckFailedException` is mapped by
call site — `put_unique` translates it into `HashKeyExists` while a
conditional `update` translates it into `ConditionFailed` — and any other
transport outcome propagates unchanged from both operations. -/
theorem C9_error_translation_by_call_site :
    (∀ (hk : String) (item : PyVal),
        put_unique hk
          (fun _ _ => (.error (.clientError "ConditionalCheckFailedException") : Except PyErr Nat))
          item = .error .hashKeyExists)
    ∧ translateUpdate
        (.error (.clientError "ConditionalCheckFailedException") : Except PyErr Nat) =
        .error .conditionFailed
    ∧ (∀ e : PyErr, (∀ c, e ≠ .clientError c) →
        translatePutUnique (.error e : Except PyErr Nat) = .error e
        ∧ translateUpdate (.error e : Except PyErr Nat) = .error e)
    ∧ (∀ c : String, c ≠ "ConditionalCheckFailedException" →
        translatePutUnique (.error (.clientError c) : Except PyErr Nat) = .error (.clientError c)
        ∧ translateUpdate (.error (.clientError c) : Except PyErr Nat) = .error (.clientError c))
    ∧ (∀ r : Nat, translatePutUnique (.ok r : Except PyErr Nat) = .ok r
        ∧ translateUpdate (.ok r : Except PyErr Nat) = .ok r) := by
  refine ⟨fun hk item => rfl, rfl, fun e he => ?_, fun c hc => ?_, fun r => ⟨rfl, rfl⟩⟩
  · cases e <;> simp [translatePutUnique, translateUpdate]
    exact absurd rfl (he _)
  · simp [translatePutUnique, translateUpdate, hc]

/-- Witness for C9: a non-`ClientError` transport error (a `TypeError`)
propagates unchanged from both call sites. -/
theorem C9_error_translation_by_call_site_witness :
    (∀ c : String, PyErr.typeError ≠ .clientError c)
    ∧ translatePutUnique (.error .typeError : Except PyErr Nat) = .error .typeError
    ∧ translateUpdate (.error .typeError : Except PyErr Nat) = .error .typeError := by
  have h : ∀ c : String, PyErr.typeError ≠ .clientError c := fun c h => PyErr.noConfusion h
  have := C9_error_translation_by_call_site.2.2.1 .typeError h
  exact ⟨h, this.1, this.2⟩

/-! Claim C7 -/

/-- Claim C7 counterexample: supplying `exists` with an empty list — a value
other than boolean `True` — does not fail at all: the `TypeError` fallback
unpacks the empty iterable into a zero-argument call and the condition is
built.  Moreover the failure for a 3-element `between` is a builtin
`TypeError`; no `OperatorArgumentError`/`InvalidOperatorArgument` class
exists in the codebase. -/
theorem C7_counterexample :
    Q [("baz__exists", .pylist [])] = .ok (some (.leaf "exists" "baz" []))
    ∧ Q [("count__between", .pylist [.pynum 1, .pynum 2, .pynum 3])] = .error .typeError
    ∧ isDynamormError .typeError = false :=
  ⟨rfl, rfl, rfl⟩

/-- Claim C7 (amended): for a condition mapping entry, supplying `between`
with a list whose length is not 2 fails with the builtin `TypeError` (there
is no dedicated operator-argument error class); supplying `exists` or
`not_exists` with a value that is neither boolean `True` nor iterable fails
with `TypeError`, but an iterable value unpacking to zero arguments (such as
the empty list) is accepted as a plain no-argument call. -/
theorem C7_between_exists_argument_errors :
    (∀ (tok path : String) (xs : List PyVal),
        parseAttr tok = some (path, "between") → xs.length ≠ 2 →
        Q [(tok, .pylist xs)] = .error .typeError)
    ∧ (∀ (tok path op : String) (v : PyVal),
        parseAttr tok = some (path, op) → (op = "exists" ∨ op = "not_exists") →
        isTrueV v = false → iterArgs v = none →
        Q [(tok, v)] = .error .typeError)
    ∧ (∀ path : String, applyQOp path "exists" (.pylist []) = .ok (.leaf "exists" path []))
    ∧ (∀ path : String, applyQOp path "exists" (.pybool true) = .ok (.leaf "exists" path []))
    ∧ isDynamormError .typeError = false := by
  refine ⟨fun tok path xs hp hlen => ?_, fun tok path op v hp hop ht hi => ?_,
    fun path => rfl, fun path => rfl, rfl⟩
  · have happ : applyQOp path "between" (.pylist xs) = .error .typeError := by
      simp [applyQOp, callAttrOp, attrOpArity, isTrueV, iterArgs, hlen]
    simp [Q, Qrun, hp, happ]
  · have happ : applyQOp path op v = .error .typeError := by
      rcases hop with h | h <;> subst h <;>
        simp [applyQOp, callAttrOp, attrOpArity, ht, hi]
    simp [Q, Qrun, hp, happ]

/-- Witness for C7: the 3-element `between` instance. -/
theorem C7_between_exists_argument_errors_witness :
    parseAttr "count__between" = some ("count", "between")
    ∧ ([PyVal.pynum 1, .pynum 2, .pynum 3].length ≠ 2)
    ∧ Q [("count__between", .pylist [.pynum 1, .pynum 2, .pynum 3])] = .error .typeError :=
  ⟨rfl, by decide,
    C7_between_exists_argument_errors.1 "count__between" "count"
      [.pynum 1, .pynum 2, .pynum 3] rfl (by decide)⟩

/-! Claim C8 -/

/-- `queryOpCall` can only fail with `AttributeError` or `TypeError`. -/
theorem queryOpCall_ne_assertionError (k o : String) (v : PyVal) :
    queryOpCall k o v ≠ .error .assertionError := by
  rw [queryOpCall]
  split
  · split <;> simp
  · simp

/-- The key-condition loop itself never raises an `AssertionError`: its only
failures are `InvalidSchemaField`, `AttributeError` and `TypeError`. -/
theorem queryLoop_ne_assertionError (fields : List String) :
    ∀ (kwargs : List (String × PyVal)) (acc : Option KeyCond),
      queryLoop fields acc kwargs ≠ .error .assertionError := by
  intro kwargs
  induction kwargs with
  | nil => intro acc h; simp [queryLoop] at h
  | cons e rest ih =>
      intro acc h
      cases e with
      | mk tok v =>
          rw [queryLoop] at h
          by_cases hf : (querySplit tok).1 ∈ fields
          · rw [if_pos hf] at h
            rcases hq : queryOpCall (querySplit tok).1 (querySplit tok).2 v with err | c
            · rw [hq] at h
              simp at h
              exact queryOpCall_ne_assertionError _ _ _ (by rw [hq, h])
            · rw [hq] at h
              simp at h
              exact ih _ h
          · rw [if_neg hf] at h
            simp at h

/-- Claim C8 counterexample: a query with zero (or more than two) key terms
fails with the builtin `AssertionError` of `assert len(kwargs) in (1, 2)`,
not with a DynamORM exception class — no `InvalidKeyArity` class exists in
the codebase. -/
theorem C8_counterexample :
    queryBuild ["foo"] [] = .error .assertionError
    ∧ queryBuild ["foo"]
        [("foo", .pystr "a"), ("foo", .pystr "b"), ("foo", .pystr "c")] =
        .error .assertionError
    ∧ isDynamormError .assertionError = false :=
  ⟨rfl, rfl, rfl⟩

/-- Claim C8 (amended): a query whose key mapping contains zero entries, or
more than two, fails before any wire request — but with the builtin
`AssertionError`, as there is no `InvalidKeyArity` exception class; mappings
of exactly 1 or 2 entries pass the arity check (they never produce that
`AssertionError`). -/
theorem C8_query_arity_check :
    (∀ (fields : List String) (kwargs : List (String × PyVal)),
        kwargs.length ≠ 1 → kwargs.length ≠ 2 →
        queryBuild fields kwargs = .error .assertionError)
    ∧ (∀ (fields : List String) (kwargs : List (String × PyVal)),
        kwargs.length = 1 ∨ kwargs.length = 2 →
        queryBuild fields kwargs ≠ .error .assertionError) := by
  constructor
  · intro fields kwargs h1 h2
    rw [queryBuild, if_neg]
    rintro (h | h)
    · exact h1 h
    · exact h2 h
  · intro fields kwargs h
    rw [queryBuild, if_pos h]
    exact queryLoop_ne_assertionError fields kwargs none

/-- Witness for C8: the empty mapping fails the arity check with
`AssertionError`, and a singleton mapping passes it. -/
theorem C8_query_arity_check_witness :
    (([] : List (String × PyVal)).length ≠ 1 ∧ ([] : List (String × PyVal)).length ≠ 2
      ∧ queryBuild ["foo"] [] = .error .assertionError)
    ∧ ([("foo", PyVal.pystr "a")].length = 1
      ∧ queryBuild ["foo"] [("foo", .pystr "a")] ≠ .error .assertionError) :=
  ⟨⟨by decide, by decide,
      C8_query_arity_check.1 ["foo"] [] (by decide) (by decide)⟩,
    ⟨rfl, C8_query_arity_check.2 ["foo"] [("foo", .pystr "a")] (Or.inl rfl)⟩⟩

/-! Claim C6 -/

/-- Claim C6 counterexample: with table attribute fields `foo` (hash key)
and `bar` (range key), applying `begins_with` to the hash key does not fail
at all — the key expression is built and would be sent on the wire — while
applying `between` to the range key fails with a builtin `TypeError`
(`between` is called with the single list value), so it is not accepted
either. -/
theorem C6_counterexample :
    queryBuild ["foo", "bar"] [("foo__begins_with", .pystr "x")] =
      .ok (some (.leaf "begins_with" "foo" [.pystr "x"]))
    ∧ queryBuild ["foo", "bar"] [("bar__between", .pylist [.pynum 1, .pynum 2])] =
      .error .typeError :=
  ⟨rfl, rfl⟩

/-- Claim C6 (amended): the key-expression builder applies no hash/range
role check at all — any of `eq`/`lt`/`lte`/`gt`/`gte`/`begins_with` is
accepted on any attribute of the targeted key schema (hash or range alike),
with server-side validation left to DynamoDB — while `between` fails with a
builtin `TypeError` on either key because the builder invokes the `Key`
method with the single sequence value. -/
theorem C6_no_key_role_check :
    (∀ (fields : List String) (tok k o : String) (v : PyVal),
        querySplit tok = (k, o) → k ∈ fields →
        o ∈ (["eq", "lt", "lte", "gt", "gte", "begins_with"] : List String) →
        queryBuild fields [(tok, v)] = .ok (some (.leaf o k [v])))
    ∧ (∀ (fields : List String) (tok k : String) (v : PyVal),
        querySplit tok = (k, "between") → k ∈ fields →
        queryBuild fields [(tok, v)] = .error .typeError) := by
  constructor
  · intro fields tok k o v hs hk ho
    have harity : keyOpArity o = some 1 := by
      fin_cases ho <;> rfl
    have hmem : o ∈ keyAttrSet := by
      fin_cases ho <;> decide
    simp [queryBuild, queryLoop, hs, hk, queryOpCall, hmem, harity, keyAndFold]
  · intro fields tok k v hs hk
    simp [queryBuild, queryLoop, hs, hk, queryOpCall, keyAttrSet, keyOpArity]

/-- Witness for C6: `gte` on a schema attribute is accepted, `between` on
the same attribute raises `TypeError`. -/
theorem C6_no_key_role_check_witness :
    (querySplit "foo__gte" = ("foo", "gte")
      ∧ queryBuild ["foo"] [("foo__gte", .pynum 5)] = .ok (some (.leaf "gte" "foo" [.pynum 5])))
    ∧ (querySplit "foo__between" = ("foo", "between")
      ∧ queryBuild ["foo"] [("foo__between", .pylist [.pynum 1, .pynum 2])] = .error .typeError) :=
  ⟨⟨rfl, C6_no_key_role_check.1 ["foo"] "foo__gte" "foo" "gte" (.pynum 5) rfl
      (by decide) (by decide)⟩,
    ⟨rfl, C6_no_key_role_check.2 ["foo"] "foo__between" "foo"
      (.pylist [.pynum 1, .pynum 2]) rfl (by decide)⟩⟩

/-! Claim C1 -/

/-- When no segment is an `Attr` attribute the parser loop consumes them all
into the dot-joined path and defaults the operator to `eq`. -/
theorem parsePartsLTR_no_op :
    ∀ (rest : List String) (path : String), (∀ p ∈ rest, p ∉ attrOps) →
      parsePartsLTR path rest = (dotJoin path rest, "eq", []) := by
  intro rest
  induction rest with
  | nil => intro path _; rfl
  | cons p rest ih =>
      intro path h
      have hp : p ∉ attrOps := h p (List.mem_cons_self p rest)
      rw [parsePartsLTR, if_neg hp]
      have := ih (path ++ "." ++ p) fun q hq => h q (List.mem_cons_of_mem p hq)
      simpa [dotJoin] using this

/-- The parser loop stops at the first segment that is an `Attr` attribute,
leaving everything after it untouched. -/
theorem parsePartsLTR_stop :
    ∀ (mids : List String) (path op : String) (tail : List String),
      (∀ p ∈ mids, p ∉ attrOps) → op ∈ attrOps →
      parsePartsLTR path (mids ++ op :: tail) = (dotJoin path mids, op, tail) := by
  intro mids
  induction mids with
  | nil => intro path op tail _ hop; simp [parsePartsLTR, hop, dotJoin]
  | cons p rest ih =>
      intro path op tail h hop
      have hp : p ∉ attrOps := h p (List.mem_cons_self p rest)
      rw [List.cons_append, parsePartsLTR, if_neg hp]
      have := ih (path ++ "." ++ p) op tail (fun q hq => h q (List.mem_cons_of_mem p hq)) hop
      simpa [dotJoin] using this

/-- Claim C1 counterexample: on the token `foo__eq__bar` the right-to-left
rule of the claim yields path `foo.bar` with operator `eq`, but the code's
parser — which scans left to right and insists that nothing follow the
operator segment — raises an `AssertionError` (modelled as `none`). -/
theorem C1_counterexample :
    parseAttr "foo__eq__bar" = none
    ∧ parseAttrSpecRTL "foo__eq__bar" = ("foo.bar", "eq") :=
  ⟨rfl, rfl⟩

/-- Claim C1 (amended): the attribute-path parser splits the token on the
double-underscore delimiter and scans the segments after the first from the
left: a segment that is not a known operator name extends the dot-joined
attribute path; the first segment that is a known operator name is consumed
as the operator and parsing stops, raising an `AssertionError` if any
segments remain after it; if no operator is found by the time segments are
exhausted the operator defaults to `eq`.  In particular
`address__state__begins_with` parses to path `address.state` with operator
`begins_with` and `address__state` parses to path `address.state` with
operator `eq`. -/
theorem C1_attr_token_parsing :
    parseAttr "address__state__begins_with" = some ("address.state", "begins_with")
    ∧ parseAttr "address__state" = some ("address.state", "eq")
    ∧ (∀ (tok first : String) (rest : List String),
        pySplitDU tok = first :: rest → (∀ p ∈ rest, p ∉ attrOps) →
        parseAttr tok = some (dotJoin first rest, "eq"))
    ∧ (∀ (tok first op : String) (mids : List String),
        pySplitDU tok = first :: (mids ++ [op]) →
        (∀ p ∈ mids, p ∉ attrOps) → op ∈ attrOps →
        parseAttr tok = some (dotJoin first mids, op))
    ∧ (∀ (tok first op : String) (mids tail : List String),
        pySplitDU tok = first :: (mids ++ op :: tail) →
        (∀ p ∈ mids, p ∉ attrOps) → op ∈ attrOps → tail ≠ [] →
        parseAttr tok = none) := by
  refine ⟨rfl, rfl, fun tok first rest hs h => ?_, fun tok first op mids hs h hop => ?_,
    fun tok first op mids tail hs h hop htail => ?_⟩
  · rw [parseAttr, hs]
    simp only [parsePartsLTR_no_op rest first h]
  · rw [parseAttr, hs]
    simp only [parsePartsLTR_stop mids first op [] h hop]
  · rw [parseAttr, hs]
    simp only [parsePartsLTR_stop mids first op tail h hop]
    cases tail with
    | nil => exact absurd rfl htail
    | cons a tl => rfl

/-- Witness for C1: the general clauses instantiated on
`child__sub__begins_with`, on `address__state` and on the failing
`foo__eq__bar`. -/
theorem C1_attr_token_parsing_witness :
    (pySplitDU "child__sub__begins_with" = "child" :: (["sub"] ++ ["begins_with"])
      ∧ parseAttr "child__sub__begins_with" = some (dotJoin "child" ["sub"], "begins_with"))
    ∧ (pySplitDU "address__state" = "address" :: ["state"]
      ∧ parseAttr "address__state" = some (dotJoin "address" ["state"], "eq"))
    ∧ (pySplitDU "foo__eq__bar" = "foo" :: ([] ++ "eq" :: ["bar"])
      ∧ parseAttr "foo__eq__bar" = none) :=
  ⟨⟨rfl, C1_attr_token_parsing.2.2.2.1 "child__sub__begins_with" "child" "begins_with"
      ["sub"] rfl (by decide) (by decide)⟩,
    ⟨rfl, C1_attr_token_parsing.2.2.1 "address__state" "address" ["state"] rfl (by decide)⟩,
    ⟨rfl, C1_attr_token_parsing.2.2.2.2 "foo__eq__bar" "foo" "eq" [] ["bar"] rfl
      (by decide) (by decide) (by decide)⟩⟩

/-! Claim C4 -/

/-- On a chained response sequence with no caller `Limit` the executor
consumes exactly every page: it issues one request per page, passes each
page's `LastEvaluatedKey` as the next request's `ExclusiveStartKey`, and
yields the pages' items per page in order. -/
theorem yieldItems_chained :
    ∀ (pages : List Page) (esk : Option Nat), chainedPages pages = true →
      yieldItems none esk pages =
        some ⟨allItems pages, pages.length, esk :: (pages.dropLast.map Page.lastKey)⟩ := by
  intro pages
  induction pages using chainedPages.induct with
  | case1 =>
      intro esk h
      simp [chainedPages] at h
  | case2 p =>
      intro esk h
      have hk : p.lastKey = none := by
        simpa [chainedPages, Option.isNone_iff_eq_none] using h
      simp [yieldItems, hk, allItems]
  | case3 p q rest ih =>
      intro esk h
      rw [chainedPages] at h
      have h1 : p.lastKey.isSome = true := by
        cases hb : p.lastKey.isSome
        · rw [hb] at h; simp at h
        · rfl
      have h2 : chainedPages (q :: rest) = true := by
        rcases Bool.and_eq_true_iff.mp h with ⟨_, h2⟩
        exact h2
      rcases Option.isSome_iff_exists.mp h1 with ⟨lek, hlek⟩
      rw [yieldItems, hlek]
      simp only [ih (some lek) h2]
      simp [allItems, hlek, List.dropLast]

/-- Claim C4: for every sequence of N transport responses where each page
except the last carries a `LastEvaluatedKey` and the caller sets no `Limit`,
the paginated executor issues exactly N requests (passing each page's
`LastEvaluatedKey` as the next request's `ExclusiveStartKey`), yields every
page's items in original per-page order with no duplicates (when the pages
themselves carry no duplicates), and terminates as soon as a response
carries no continuation cursor. -/
theorem C4_pagination_consumes_all_pages :
    (∀ (pages : List Page) (esk : Option Nat), chainedPages pages = true →
        yieldItems none esk pages =
          some ⟨allItems pages, pages.length, esk :: (pages.dropLast.map Page.lastKey)⟩)
    ∧ (∀ (p : Page) (rest : List Page) (esk : Option Nat), p.lastKey = none →
        yieldItems none esk (p :: rest) = some ⟨p.items.filterMap id, 1, [esk]⟩)
    ∧ (∀ (pages : List Page) (esk : Option Nat) (r : RunResult),
        chainedPages pages = true → (allItems pages).Nodup →
        yieldItems none esk pages = some r → r.yielded.Nodup) := by
  refine ⟨yieldItems_chained, fun p rest esk h => ?_, fun pages esk r hc hnd hy => ?_⟩
  · rw [yieldItems, h]
  · rw [yieldItems_chained pages esk hc] at hy
    cases hy
    exact hnd

/-- Witness for C4: the chained three-page transport `pages223` is consumed
in three requests, each continuation key forwarded, all six items yielded in
order and duplicate-free. -/
theorem C4_pagination_consumes_all_pages_witness :
    chainedPages pages223 = true
    ∧ yieldItems none none pages223 =
        some ⟨allItems pages223, pages223.length, none :: (pages223.dropLast.map Page.lastKey)⟩
    ∧ (allItems pages223).Nodup
    ∧ (∀ r : RunResult, yieldItems none none pages223 = some r → r.yielded.Nodup) :=
  ⟨rfl, C4_pagination_consumes_all_pages.1 pages223 none rfl, by decide,
    fun r h => C4_pagination_consumes_all_pages.2.2 pages223 none r rfl (by decide) h⟩

/-! Claim C5 -/

/-- Claim C5: when the caller supplies a `Limit`, the paginated executor
decrements it by each response's scanned-count after the page's items are
yielded and issues no further request once it drops to zero or below; in
particular, for pages of sizes [2,2,2] and `Limit` 3 the executor yields at
least 3 items and issues no more than 2 requests. -/
theorem C5_pagination_limit :
    (∀ (l : Int) (p : Page) (rest : List Page) (esk : Option Nat),
        p.lastKey.isSome = true → l - p.scanned ≤ 0 →
        yieldItems (some l) esk (p :: rest) = some ⟨p.items.filterMap id, 1, [esk]⟩)
    ∧ (∀ (l : Int) (p : Page) (rest : List Page) (esk : Option Nat) (lek : Nat),
        p.lastKey = some lek → 0 < l - p.scanned →
        yieldItems (some l) esk (p :: rest) =
          (yieldItems (some (l - p.scanned)) (some lek) rest).map
            (fun r => ⟨p.items.filterMap id ++ r.yielded, r.requests + 1, esk :: r.startKeys⟩))
    ∧ yieldItems (some 3) none pages223 = some ⟨[1, 2, 3, 4], 2, [none, some 101]⟩
    ∧ (∀ r : RunResult, yieldItems (some 3) none pages223 = some r →
        3 ≤ r.yielded.length ∧ r.requests ≤ 2) := by
  refine ⟨fun l p rest esk hk hl => ?_, fun l p rest esk lek hk hl => ?_, rfl, fun r h => ?_⟩
  · rcases Option.isSome_iff_exists.mp hk with ⟨lek, hlek⟩
    rw [yieldItems, hlek]
    simp [hl]
  · have hneg : ¬ (l - (p.scanned : Int) ≤ 0) := by omega
    rw [yieldItems, hk]
    simp only [hneg, if_false]
    cases yieldItems (some (l - p.scanned)) (some lek) rest <;> simp
  · have : r = ⟨[1, 2, 3, 4], 2, [none, some 101]⟩ := by
      have h2 : yieldItems (some 3) none pages223 = some ⟨[1, 2, 3, 4], 2, [none, some 101]⟩ := rfl
      rw [h2] at h
      exact (Option.some_injective _ h).symm
    rw [this]
    exact ⟨by decide, by decide⟩

/-- Witness for C5: a single page carrying a continuation cursor but
exhausting the limit — the executor stops after one request. -/
theorem C5_pagination_limit_witness :
    ((⟨[some 9], some 5, 2⟩ : Page).lastKey.isSome = true
      ∧ (1 : Int) - (⟨[some 9], some 5, 2⟩ : Page).scanned ≤ 0
      ∧ yieldItems (some 1) none [⟨[some 9], some 5, 2⟩, ⟨[some 8], none, 1⟩] =
          some ⟨[9], 1, [none]⟩)
    ∧ (∀ r : RunResult, yieldItems (some 3) none pages223 = some r →
        3 ≤ r.yielded.length ∧ r.requests ≤ 2) :=
  ⟨⟨rfl, by decide,
      C5_pagination_limit.1 1 ⟨[some 9], some 5, 2⟩ [⟨[some 8], none, 1⟩] none rfl (by decide)⟩,
    fun r h => C5_pagination_limit.2.2.2 r h⟩

/-! Claim C3 -/

/-- `SET` fragments only accumulate: every fragment of the accumulator is a
fragment of the final parts. -/
theorem buildUpdate_fields_grow
    (sf : List String) (hk : String) (rk : Option String) :
    ∀ (kwargs : List (String × PyVal)) (acc parts : UpdateParts),
      buildUpdateParts sf hk rk acc kwargs = .ok parts →
      ∀ frag ∈ acc.updateFields, frag ∈ parts.updateFields := by
  intro kwargs
  induction kwargs with
  | nil =>
      intro acc parts h frag hf
      rw [buildUpdateParts] at h
      cases h
      exact hf
  | cons e rest ih =>
      intro acc parts h frag hf
      cases e with
      | mk tok v =>
          rw [buildUpdateParts] at h
          by_cases hsf : updAttr tok ∈ sf
          · rw [if_pos hsf] at h
            by_cases hkey : updAttr tok = hk ∨ rk = some (updAttr tok)
            · rw [if_pos hkey] at h
              exact ih _ _ h frag hf
            · rw [if_neg hkey] at h
              rcases ht : updateTemplate (updFn tok) (updAttr tok) with _ | frag0
              · rw [ht] at h; simp at h
              · rw [ht] at h
                simp only at h
                exact ih _ _ h frag (by simp [List.mem_append, hf])
          · rw [if_neg hsf] at h
            simp at h

/-- Every `SET` fragment of the final parts is a fragment of the
accumulator or the template of a non-key entry of the kwargs. -/
theorem buildUpdate_fields_origin
    (sf : List String) (hk : String) (rk : Option String) :
    ∀ (kwargs : List (String × PyVal)) (acc parts : UpdateParts),
      buildUpdateParts sf hk rk acc kwargs = .ok parts →
      ∀ frag ∈ parts.updateFields, frag ∈ acc.updateFields ∨
        ∃ tokf vf, (tokf, vf) ∈ kwargs
          ∧ ¬(updAttr tokf = hk ∨ rk = some (updAttr tokf))
          ∧ updateTemplate (updFn tokf) (updAttr tokf) = some frag := by
  intro kwargs
  induction kwargs with
  | nil =>
      intro acc parts h frag hf
      rw [buildUpdateParts] at h
      cases h
      exact Or.inl hf
  | cons e rest ih =>
      intro acc parts h frag hf
      cases e with
      | mk tok v =>
          rw [buildUpdateParts] at h
          by_cases hsf : updAttr tok ∈ sf
          · rw [if_pos hsf] at h
            by_cases hkey : updAttr tok = hk ∨ rk = some (updAttr tok)
            · rw [if_pos hkey] at h
              rcases ih _ _ h frag hf with h1 | ⟨tokf, vf, hm, hnk, ht⟩
              · exact Or.inl h1
              · exact Or.inr ⟨tokf, vf, List.mem_cons_of_mem _ hm, hnk, ht⟩
            · rw [if_neg hkey] at h
              rcases ht : updateTemplate (updFn tok) (updAttr tok) with _ | frag0
              · rw [ht] at h; simp at h
              · rw [ht] at h
                simp only at h
                rcases ih _ _ h frag hf with h1 | ⟨tokf, vf, hm, hnk, ht2⟩
                · rcases List.mem_append.mp h1 with h2 | h2
                  · exact Or.inl h2
                  · have : frag = frag0 := by simpa using h2
                    subst this
                    exact Or.inr ⟨tok, v, List.mem_cons_self _ _, hkey, ht⟩
                · exact Or.inr ⟨tokf, vf, List.mem_cons_of_mem _ hm, hnk, ht2⟩
          · rw [if_neg hsf] at h
            simp at h

/-- Invariant of the alias tables and the key mapping: every
`ExpressionAttributeNames` entry aliases a non-key attribute under its
`#uk_` placeholder, every `ExpressionAttributeValues` entry belongs to a
non-key attribute under its `:uv_` placeholder, and every `Key` entry is a
hash/range-key attribute. -/
theorem buildUpdate_alias_invariant
    (sf : List String) (hk : String) (rk : Option String) :
    ∀ (kwargs : List (String × PyVal)) (acc parts : UpdateParts),
      buildUpdateParts sf hk rk acc kwargs = .ok parts →
      (∀ pn ∈ acc.exprNames, pn.1 = "#uk_" ++ pn.2 ∧ ¬(pn.2 = hk ∨ rk = some pn.2)) →
      (∀ pv ∈ acc.exprVals, ∃ k, pv.1 = ":uv_" ++ k ∧ ¬(k = hk ∨ rk = some k)) →
      (∀ kv ∈ acc.updateKey, kv.1 = hk ∨ rk = some kv.1) →
      (∀ pn ∈ parts.exprNames, pn.1 = "#uk_" ++ pn.2 ∧ ¬(pn.2 = hk ∨ rk = some pn.2))
      ∧ (∀ pv ∈ parts.exprVals, ∃ k, pv.1 = ":uv_" ++ k ∧ ¬(k = hk ∨ rk = some k))
      ∧ (∀ kv ∈ parts.updateKey, kv.1 = hk ∨ rk = some kv.1) := by
  intro kwargs
  induction kwargs with
  | nil =>
      intro acc parts h h1 h2 h3
      rw [buildUpdateParts] at h
      cases h
      exact ⟨h1, h2, h3⟩
  | cons e rest ih =>
      intro acc parts h h1 h2 h3
      cases e with
      | mk tok v =>
          rw [buildUpdateParts] at h
          by_cases hsf : updAttr tok ∈ sf
          · rw [if_pos hsf] at h
            by_cases hkey : updAttr tok = hk ∨ rk = some (updAttr tok)
            · rw [if_pos hkey] at h
              refine ih _ _ h h1 h2 ?_
              intro kv hkv
              rcases kv with ⟨a, b⟩
              rcases mem_dictInsert hkv with heq | hm
              · cases heq
                exact hkey
              · exact h3 _ hm
            · rw [if_neg hkey] at h
              rcases ht : updateTemplate (updFn tok) (updAttr tok) with _ | frag0
              · rw [ht] at h; simp at h
              · rw [ht] at h
                simp only at h
                refine ih _ _ h ?_ ?_ h3
                · intro pn hpn
                  rcases pn with ⟨a, b⟩
                  rcases mem_dictInsert hpn with heq | hm
                  · cases heq
                    exact ⟨rfl, hkey⟩
                  · exact h1 _ hm
                · intro pv hpv
                  rcases pv with ⟨a, b⟩
                  rcases mem_dictInsert hpv with heq | hm
                  · cases heq
                    exact ⟨updAttr tok, rfl, hkey⟩
                  · exact h2 _ hm
          · rw [if_neg hsf] at h
            simp at h

/-- A `Key` entry for an attribute not resolved by any remaining kwarg
survives the rest of the loop. -/
theorem buildUpdate_key_preserved
    (sf : List String) (hk : String) (rk : Option String) :
    ∀ (kwargs : List (String × PyVal)) (acc parts : UpdateParts)
      (k : String) (v : PyVal),
      buildUpdateParts sf hk rk acc kwargs = .ok parts →
      (k, v) ∈ acc.updateKey → (∀ e ∈ kwargs, updAttr e.1 ≠ k) →
      (k, v) ∈ parts.updateKey := by
  intro kwargs
  induction kwargs with
  | nil =>
      intro acc parts k v h hm _
      rw [buildUpdateParts] at h
      cases h
      exact hm
  | cons e rest ih =>
      intro acc parts k v h hm hfresh
      cases e with
      | mk tok v' =>
          rw [buildUpdateParts] at h
          by_cases hsf : updAttr tok ∈ sf
          · rw [if_pos hsf] at h
            by_cases hkey : updAttr tok = hk ∨ rk = some (updAttr tok)
            · rw [if_pos hkey] at h
              refine ih _ _ k v h ?_ fun e he => hfresh e (List.mem_cons_of_mem _ he)
              exact dictInsert_mem_of_ne _ _ hm
                fun hkk => hfresh (tok, v') (List.mem_cons_self _ _) (by simp [hkk])
            · rw [if_neg hkey] at h
              rcases ht : updateTemplate (updFn tok) (updAttr tok) with _ | frag0
              · rw [ht] at h; simp at h
              · rw [ht] at h
                simp only at h
                exact ih _ _ k v h hm fun e he => hfresh e (List.mem_cons_of_mem _ he)
          · rw [if_neg hsf] at h
            simp at h

/-- An alias-table entry whose placeholder differs from every placeholder
the remaining kwargs could insert survives the rest of the loop
(`ExpressionAttributeNames` version). -/
theorem buildUpdate_names_preserved
    (sf : List String) (hk : String) (rk : Option String) :
    ∀ (kwargs : List (String × PyVal)) (acc parts : UpdateParts)
      (pl n : String),
      buildUpdateParts sf hk rk acc kwargs = .ok parts →
      (pl, n) ∈ acc.exprNames → (∀ e ∈ kwargs, pl ≠ "#uk_" ++ updAttr e.1) →
      (pl, n) ∈ parts.exprNames := by
  intro kwargs
  induction kwargs with
  | nil =>
      intro acc parts pl n h hm _
      rw [buildUpdateParts] at h
      cases h
      exact hm
  | cons e rest ih =>
      intro acc parts pl n h hm hfresh
      cases e with
      | mk tok v' =>
          rw [buildUpdateParts] at h
          by_cases hsf : updAttr tok ∈ sf
          · rw [if_pos hsf] at h
            by_cases hkey : updAttr tok = hk ∨ rk = some (updAttr tok)
            · rw [if_pos hkey] at h
              exact ih _ _ pl n h hm fun e he => hfresh e (List.mem_cons_of_mem _ he)
            · rw [if_neg hkey] at h
              rcases ht : updateTemplate (updFn tok) (updAttr tok) with _ | frag0
              · rw [ht] at h; simp at h
              · rw [ht] at h
                simp only at h
                refine ih _ _ pl n h ?_ fun e he => hfresh e (List.mem_cons_of_mem _ he)
                exact dictInsert_mem_of_ne _ _ hm
                  (hfresh (tok, v') (List.mem_cons_self _ _))
          · rw [if_neg hsf] at h
            simp at h

/-- An alias-table entry whose placeholder differs from every placeholder
the remaining kwargs could insert survives the rest of the loop
(`ExpressionAttributeValues` version). -/
theorem buildUpdate_vals_preserved
    (sf : List String) (hk : String) (rk : Option String) :
    ∀ (kwargs : List (String × PyVal)) (acc parts : UpdateParts)
      (pl : String) (v : PyVal),
      buildUpdateParts sf hk rk acc kwargs = .ok parts →
      (pl, v) ∈ acc.exprVals → (∀ e ∈ kwargs, pl ≠ ":uv_" ++ updAttr e.1) →
      (pl, v) ∈ parts.exprVals := by
  intro kwargs
  induction kwargs with
  | nil =>
      intro acc parts pl v h hm _
      rw [buildUpdateParts] at h
      cases h
      exact hm
  | cons e rest ih =>
      intro acc parts pl v h hm hfresh
      cases e with
      | mk tok v' =>
          rw [buildUpdateParts] at h
          by_cases hsf : updAttr tok ∈ sf
          · rw [if_pos hsf] at h
            by_cases hkey : updAttr tok = hk ∨ rk = some (updAttr tok)
            · rw [if_pos hkey] at h
              exact ih _ _ pl v h hm fun e he => hfresh e (List.mem_cons_of_mem _ he)
            · rw [if_neg hkey] at h
              rcases ht : updateTemplate (updFn tok) (updAttr tok) with _ | frag0
              · rw [ht] at h; simp at h
              · rw [ht] at h
                simp only at h
                refine ih _ _ pl v h ?_ fun e he => hfresh e (List.mem_cons_of_mem _ he)
                exact dictInsert_mem_of_ne _ _ hm
                  (hfresh (tok, v') (List.mem_cons_self _ _))
          · rw [if_neg hsf] at h
            simp at h

/-- Per-entry routing of `update` kwargs, given pairwise-distinct resolved
attribute names: a hash/range-key entry ends in the `Key` mapping; any other
entry ends in the alias tables and contributes its `SET` fragment. -/
theorem buildUpdate_entry_mem
    (sf : List String) (hk : String) (rk : Option String) :
    ∀ (kwargs : List (String × PyVal)) (acc parts : UpdateParts),
      buildUpdateParts sf hk rk acc kwargs = .ok parts →
      (kwargs.map fun e => updAttr e.1).Nodup →
      ∀ tok v, (tok, v) ∈ kwargs →
        ((updAttr tok = hk ∨ rk = some (updAttr tok)) →
          (updAttr tok, v) ∈ parts.updateKey)
        ∧ (¬(updAttr tok = hk ∨ rk = some (updAttr tok)) →
          ("#uk_" ++ updAttr tok, updAttr tok) ∈ parts.exprNames
          ∧ (":uv_" ++ updAttr tok, v) ∈ parts.exprVals
          ∧ ∃ frag, updateTemplate (updFn tok) (updAttr tok) = some frag
              ∧ frag ∈ parts.updateFields) := by
  intro kwargs
  induction kwargs with
  | nil =>
      intro acc parts _ _ tok v hm
      simp at hm
  | cons e rest ih =>
      intro acc parts h hnd tok v hm
      cases e with
      | mk tok0 v0 =>
          have hnd0 : updAttr tok0 ∉ rest.map fun e => updAttr e.1 :=
            (List.nodup_cons.mp hnd).1
          have hndr : (rest.map fun e => updAttr e.1).Nodup :=
            (List.nodup_cons.mp hnd).2
          rw [buildUpdateParts] at h
          by_cases hsf : updAttr tok0 ∈ sf
          · rw [if_pos hsf] at h
            rcases List.mem_cons.mp hm with hhead | htail
            · have htok : tok = tok0 ∧ v = v0 := by
                cases hhead; exact ⟨rfl, rfl⟩
              rcases htok with ⟨htok, hv⟩
              subst htok
              subst hv
              constructor
              · intro hkey
                rw [if_pos hkey] at h
                refine buildUpdate_key_preserved sf hk rk rest _ parts _ _ h
                  (dictInsert_mem_self _ _ _) ?_
                intro e he heq
                exact hnd0 (by simpa [heq] using List.mem_map_of_mem (fun e => updAttr e.1) he)
              · intro hkey
                rw [if_neg hkey] at h
                rcases ht : updateTemplate (updFn tok) (updAttr tok) with _ | frag0
                · rw [ht] at h; simp at h
                · rw [ht] at h
                  simp only at h
                  have hfreshN : ∀ e ∈ rest, "#uk_" ++ updAttr tok ≠ "#uk_" ++ updAttr e.1 := by
                    intro e he heq
                    have : updAttr tok = updAttr e.1 := str_append_left_cancel heq
                    exact hnd0 (by simpa [this] using List.mem_map_of_mem (fun e => updAttr e.1) he)
                  have hfreshV : ∀ e ∈ rest, ":uv_" ++ updAttr tok ≠ ":uv_" ++ updAttr e.1 := by
                    intro e he heq
                    have : updAttr tok = updAttr e.1 := str_append_left_cancel heq
                    exact hnd0 (by simpa [this] using List.mem_map_of_mem (fun e => updAttr e.1) he)
                  refine ⟨buildUpdate_names_preserved sf hk rk rest _ parts _ _ h
                      (dictInsert_mem_self _ _ _) hfreshN,
                    buildUpdate_vals_preserved sf hk rk rest _ parts _ _ h
                      (dictInsert_mem_self _ _ _) hfreshV,
                    frag0, rfl, ?_⟩
                  exact buildUpdate_fields_grow sf hk rk rest _ parts h frag0
                    (by simp)
            · by_cases hkey : updAttr tok0 = hk ∨ rk = some (updAttr tok0)
              · rw [if_pos hkey] at h
                exact ih _ _ h hndr tok v htail
              · rw [if_neg hkey] at h
                rcases ht : updateTemplate (updFn tok0) (updAttr tok0) with _ | frag0
                · rw [ht] at h; simp at h
                · rw [ht] at h
                  simp only at h
                  exact ih _ _ h hndr tok v htail
          · rw [if_neg hsf] at h
            simp at h

/-- Claim C3: for every `update` call and every mutation entry, if the
entry's resolved attribute name equals the table's hash key or range key its
value is routed into the `Key` portion of the request and that attribute
never appears in the generated `SET` clause, its
`ExpressionAttributeNames`, or its `ExpressionAttributeValues`; every
non-key entry appears only in the `SET` machinery (alias tables and
fragments), never in the `Key` portion — stated for mappings whose resolved
attribute names are pairwise distinct, as Python dict assignment otherwise
keeps only the last value. -/
theorem C3_update_key_routing :
    ∀ (sf : List String) (hk : String) (rk : Option String)
      (kwargs : List (String × PyVal)) (parts : UpdateParts),
      updateKwargs sf hk rk kwargs = .ok parts →
      (kwargs.map fun e => updAttr e.1).Nodup →
      (∀ tok v, (tok, v) ∈ kwargs →
        ((updAttr tok = hk ∨ rk = some (updAttr tok)) →
          (updAttr tok, v) ∈ parts.updateKey
          ∧ (∀ pn ∈ parts.exprNames, pn.2 ≠ updAttr tok)
          ∧ (∀ pv ∈ parts.exprVals, pv.1 ≠ ":uv_" ++ updAttr tok))
        ∧ (¬(updAttr tok = hk ∨ rk = some (updAttr tok)) →
          (∀ kv ∈ parts.updateKey, kv.1 ≠ updAttr tok)
          ∧ ("#uk_" ++ updAttr tok, updAttr tok) ∈ parts.exprNames
          ∧ (":uv_" ++ updAttr tok, v) ∈ parts.exprVals
          ∧ ∃ frag, updateTemplate (updFn tok) (updAttr tok) = some frag
              ∧ frag ∈ parts.updateFields))
      ∧ (∀ frag ∈ parts.updateFields, ∃ tokf vf, (tokf, vf) ∈ kwargs
          ∧ ¬(updAttr tokf = hk ∨ rk = some (updAttr tokf))
          ∧ updateTemplate (updFn tokf) (updAttr tokf) = some frag) := by
  intro sf hk rk kwargs parts h hnd
  have hinv := buildUpdate_alias_invariant sf hk rk kwargs ⟨[], [], [], []⟩ parts h
    (by intro pn hpn; simp at hpn) (by intro pv hpv; simp at hpv)
    (by intro kv hkv; simp at hkv)
  constructor
  · intro tok v hm
    have hentry := buildUpdate_entry_mem sf hk rk kwargs ⟨[], [], [], []⟩ parts h hnd tok v hm
    constructor
    · intro hkey
      refine ⟨hentry.1 hkey, ?_, ?_⟩
      · intro pn hpn heq
        exact (hinv.1 pn hpn).2 (by rw [heq]; exact hkey)
      · intro pv hpv heq
        rcases hinv.2.1 pv hpv with ⟨k, hk1, hk2⟩
        have : k = updAttr tok := str_append_left_cancel (hk1 ▸ heq)
        exact hk2 (by rw [this]; exact hkey)
    · intro hkey
      refine ⟨?_, hentry.2 hkey⟩
      intro kv hkv heq
      exact hkey (heq ▸ hinv.2.2 kv hkv)
  · intro frag hf
    rcases buildUpdate_fields_origin sf hk rk kwargs ⟨[], [], [], []⟩ parts h frag hf with
      h1 | h1
    · simp at h1
    · exact h1

/-- Witness for C3: a table with hash key `foo`, range key `bar` and field
`count`; the mutation `{foo: "a", count__plus: 1}` routes `foo` into the
`Key` mapping and `count` into the `SET` machinery. -/
theorem C3_update_key_routing_witness :
    updateKwargs ["foo", "bar", "count"] "foo" (some "bar")
        [("foo", PyVal.pystr "a"), ("count__plus", PyVal.pynum 1)] =
      .ok ⟨[("foo", PyVal.pystr "a")], ["#uk_count = #uk_count + :uv_count"],
        [("#uk_count", "count")], [(":uv_count", PyVal.pynum 1)]⟩
    ∧ ([("foo", PyVal.pystr "a"), ("count__plus", PyVal.pynum 1)].map
        fun e => updAttr e.1).Nodup
    ∧ ("foo", PyVal.pystr "a") ∈
        ([("foo", PyVal.pystr "a")] : List (String × PyVal))
    ∧ (∀ pn ∈ ([("#uk_count", "count")] : List (String × String)), pn.2 ≠ updAttr "foo") := by
  have h : updateKwargs ["foo", "bar", "count"] "foo" (some "bar")
      [("foo", PyVal.pystr "a"), ("count__plus", PyVal.pynum 1)] =
      .ok ⟨[("foo", PyVal.pystr "a")], ["#uk_count = #uk_count + :uv_count"],
        [("#uk_count", "count")], [(":uv_count", PyVal.pynum 1)]⟩ := rfl
  have hnd : ([("foo", PyVal.pystr "a"), ("count__plus", PyVal.pynum 1)].map
      fun e => updAttr e.1).Nodup := by
    simp [updAttr, pySplitOnce, splitOnceAux]
  have hres := C3_update_key_routing ["foo", "bar", "count"] "foo" (some "bar")
    [("foo", PyVal.pystr "a"), ("count__plus", PyVal.pynum 1)]
    ⟨[("foo", PyVal.pystr "a")], ["#uk_count = #uk_count + :uv_count"],
      [("#uk_count", "count")], [(":uv_count", PyVal.pynum 1)]⟩ h hnd
  have hmem := (hres.1 "foo" (PyVal.pystr "a") (List.mem_cons_self _ _)).1
    (Or.inl rfl)
  exact ⟨h, hnd, hmem.1, hmem.2.1⟩

/-! Claim C10 -/

/-- `isinstance`-style dict test. -/
def isDictV : PyVal → Bool
  | .pydict _ => true
  | _ => false

/-- An item whose only `None`-valued entry sits in a dict nested inside a
list. -/
def nestedNoneItem : PyVal :=
  .pydict [("a", .pylist [.pydict [("b", .pynone)]])]

/-- Claim C10 counterexample: `remove_nones` does not descend into lists, so
an item whose `None`-valued entry sits in a dict nested inside a list is
stored by `put` unchanged — the stored item still contains a `None`-valued
attribute, contradicting "inside every nested dict" / "never contains a
None-valued attribute". -/
theorem C10_counterexample :
    remove_nones nestedNoneItem = nestedNoneItem
    ∧ hasNoneAttr nestedNoneItem = true
    ∧ put (fun i => (.ok i : Except PyErr PyVal)) nestedNoneItem = .ok nestedNoneItem
    ∧ (∀ stored : PyVal,
        put (fun i => (.ok i : Except PyErr PyVal)) nestedNoneItem = .ok stored →
        hasNoneAttr stored = true) := by
  refine ⟨rfl, rfl, rfl, fun stored h => ?_⟩
  have : stored = nestedNoneItem := by
    have h2 : put (fun i => (.ok i : Except PyErr PyVal)) nestedNoneItem =
        .ok nestedNoneItem := rfl
    rw [h2] at h
    exact (Option.some_injective _ (congrArg Except.toOption h)).symm
  rw [this]
  rfl

/-- `remove_nones` never turns a value into `None`. -/
theorem isNoneV_remove_nones (v : PyVal) : isNoneV (remove_nones v) = isNoneV v := by
  cases v <;> rfl

/-- After `remove_nones`, no `None`-valued entry is reachable through dict
values. -/
theorem cleanThroughDicts_remove_nones :
    ∀ v : PyVal, cleanThroughDicts (remove_nones v) = true := by
  refine remove_nones.induct (fun v => cleanThroughDicts (remove_nones v) = true)
    (fun kvs => cleanKVs (removeNonesKVs kvs) = true) ?_ ?_ ?_ ?_ ?_
  · intro kvs ih
    rw [remove_nones, cleanThroughDicts]
    exact ih
  · intro v hnd
    cases v with
    | pydict kvs => exact absurd rfl (hnd kvs)
    | pynone => rfl
    | pybool b => rfl
    | pynum n => rfl
    | pystr s => rfl
    | pylist xs => rfl
  · rfl
  · intro k v rest hnone ih
    rw [removeNonesKVs, if_pos hnone]
    exact ih
  · intro k v rest hnone ih1 ih2
    have hnone' : isNoneV v = false := by
      cases hb : isNoneV v
      · rfl
      · exact absurd hb hnone
    rw [removeNonesKVs, if_neg hnone, cleanKVs, isNoneV_remove_nones v, ih1, ih2, hnone']
    rfl

/-- Claim C10 (amended): before sending, `put` and `put_batch` pass the item
through `remove_nones`, which removes every `None`-valued key at the top
level and recursively inside dicts reached through dict values only — dicts
nested inside lists (or any other non-dict container) are passed through
unchanged, so `None`-valued attributes inside them survive; non-dict values
are passed through unchanged. -/
theorem C10_put_removes_nones :
    (∀ item : PyVal, cleanThroughDicts (remove_nones item) = true)
    ∧ (∀ v : PyVal, isDictV v = false → remove_nones v = v)
    ∧ (∀ (transport : PyVal → Except PyErr PyVal) (item : PyVal),
        put transport item = transport (remove_nones item))
    ∧ (∀ (transport : PyVal → Except PyErr PyVal) (items : List PyVal),
        put_batch transport items = (items.map remove_nones).mapM transport) := by
  refine ⟨cleanThroughDicts_remove_nones, fun v hv => ?_, fun transport item => rfl,
    fun transport items => ?_⟩
  · cases v with
    | pydict kvs => simp [isDictV] at hv
    | pynone => rfl
    | pybool b => rfl
    | pynum n => rfl
    | pystr s => rfl
    | pylist xs => rfl
  · induction items with
    | nil => rfl
    | cons item rest ih =>
        simp only [put_batch, List.map_cons, List.mapM_cons]
        simp only [put_batch] at ih
        rw [ih]

/-- Witness for C10: a non-dict value (a number) passes through
`remove_nones` unchanged. -/
theorem C10_put_removes_nones_witness :
    isDictV (PyVal.pynum 7) = false ∧ remove_nones (PyVal.pynum 7) = PyVal.pynum 7 :=
  ⟨rfl, C10_put_removes_nones.2.1 (PyVal.pynum 7) rfl⟩
